import Mathlib

/-!
# Verification of the NCBI genome transfer engine

Shallow embedding of `src/scripts/ncbi/download_genomes.py` (module-level
constants, `parse_accession`, `build_ftp_path`, `build_accession_path`,
`parse_md5checksums`, `create_frictionless_descriptor`,
`find_assembly_directories_in_prefix`, and the per-assembly transfer loop of
`download_genome_files`), together with theorems about the claims of the
specification.

Python strings are modelled as Lean `String`; `re.match` prefix matching of
the concrete regular expressions used by the script is implemented directly
on the character list; MD5 digesting and JSON encoding are kept abstract as
function parameters of the model (the code only compares digests for
equality and never re-reads the encoded descriptor).
-/

namespace NCBI

/-- The whitespace characters recognised by Python `str.strip()` /
`str.split()` with no argument. -/
def pyIsSpace (c : Char) : Bool :=
  c = ' ' || c = '\t' || c = '\n' || c = '\r' || c = '\x0b' || c = '\x0c'

/-- Python `str.strip()`: drop leading and trailing whitespace. -/
def pyStrip (s : String) : String :=
  ⟨((s.data.dropWhile pyIsSpace).reverse.dropWhile pyIsSpace).reverse⟩

/-- Helper for `pySplit`: accumulates the current token (reversed). -/
def pySplitAux : List Char → List Char → List (List Char)
  | acc, [] => if acc.isEmpty then [] else [acc.reverse]
  | acc, c :: cs =>
    if pyIsSpace c then
      if acc.isEmpty then pySplitAux [] cs else acc.reverse :: pySplitAux [] cs
    else pySplitAux (c :: acc) cs

/-- Python `str.split()` with no argument: split on runs of whitespace,
discarding empty tokens. -/
def pySplit (s : String) : List String := (pySplitAux [] s.data).map String.mk

/-- Python `lstrip('./')`: drop every leading character that is `'.'` or
`'/'` (an argument to `lstrip` is a character *set*, not a literal). -/
def pyLstripDotSlash (s : String) : String :=
  ⟨s.data.dropWhile (fun c => c = '.' || c = '/')⟩

/-- Python `str.lower()` (ASCII; all strings handled by the script are
ASCII). -/
def pyLower (s : String) : String := ⟨s.data.map Char.toLower⟩

/-- Python `s.endswith(suffix)`. -/
def pyEndsWith (s suffix : String) : Bool := decide (suffix.data <:+ s.data)

/-- Python `s.startswith(p)`. -/
def pyStartsWith (s p : String) : Bool := decide (p.data <+: s.data)

/-- Python `s.split(sep)` for a one-character separator (keeps empty
fields, `''.split(sep) == ['']`). -/
def splitOnCharAux (sep : Char) : List Char → List Char → List String
  | acc, [] => [String.mk acc.reverse]
  | acc, c :: cs =>
    if c = sep then String.mk acc.reverse :: splitOnCharAux sep [] cs
    else splitOnCharAux sep (c :: acc) cs

/-- Python `s.split(sep)` for a one-character separator. -/
def splitOnChar (sep : Char) (s : String) : List String :=
  splitOnCharAux sep [] s.data

/-- Python `s.replace(a, b)` for one-character `a` and `b`. -/
def replaceCh (a b : Char) (s : String) : String :=
  ⟨s.data.map (fun c => if c = a then b else c)⟩

/-- Python `dict` insertion `d[k] = v`: replace the value in place if the
key is present, else append the binding. -/
def assocInsert : List (String × String) → String → String → List (String × String)
  | [], k, v => [(k, v)]
  | kv :: rest, k, v => if kv.1 = k then (k, v) :: rest else kv :: assocInsert rest k v

/-- Python `dict.get(k)`. -/
def assocGet (d : List (String × String)) (k : String) : Option String :=
  (d.find? (fun kv => kv.1 = k)).map (fun kv => kv.2)

/-- `download_genomes.minio_bucket`. -/
def minio_bucket : String := "cdm-lake"

/-- `download_genomes.minio_path_prefix` (renamed: the original trailing
word is reserved here). -/
def minioPathBase : String := "tenant-general-warehouse/kbase/datasets/ncbi/"

/-- A character of the regex class `[\d.]`. -/
def isDigitDot (c : Char) : Bool := c.isDigit || c = '.'

/-- The regex fragment `(GC[AF])` at the head of the input, returning the
captured database code and the rest. -/
def matchDB : List Char → Option (String × List Char)
  | 'G' :: 'C' :: 'A' :: rest => some ("GCA", rest)
  | 'G' :: 'C' :: 'F' :: rest => some ("GCF", rest)
  | _ => none

/-- `re.match(r'(GC[AF])_([\d.]+)', ...)`: database code and the greedy
run of digits/dots after the underscore.  Trailing characters are allowed
(`re.match` does not anchor the end). -/
def matchBare (cs : List Char) : Option (String × String) :=
  match matchDB cs with
  | some (db, '_' :: rest2) =>
    let num := rest2.takeWhile isDigitDot
    if num.isEmpty then none else some (db, String.mk num)
  | _ => none

/-- `re.match(r'(GB|RS)_(GC[AF])_([\d.]+)', ...)`. -/
def matchFull (cs : List Char) : Option (String × String × String) :=
  match cs with
  | 'G' :: 'B' :: '_' :: rest => (matchBare rest).map (fun x => ("GB", x.1, x.2))
  | 'R' :: 'S' :: '_' :: rest => (matchBare rest).map (fun x => ("RS", x.1, x.2))
  | _ => none

/-- `download_genomes.parse_accession`: `some (prefix?, database,
accession_full)` on success, `none` where the Python raises `ValueError`. -/
def parse_accession (entry : String) : Option (Option String × String × String) :=
  let s := (pyStrip entry).data
  match matchFull s with
  | some (pfx, db, num) => some (some pfx, db, db ++ "_" ++ num)
  | none =>
    match matchBare s with
    | some (db, num) => some (none, db, db ++ "_" ++ num)
    | none => none

/-- The regex fragment `(\d{3})`: three digits at the head of the input. -/
def take3Digits : List Char → Option (String × List Char)
  | a :: b :: c :: rest =>
    if a.isDigit && b.isDigit && c.isDigit then some (String.mk [a, b, c], rest)
    else none
  | _ => none

/-- `re.match(r'GC[AF]_(\d{3})(\d{3})(\d{3})\.\d+', ...)` — the shared core
of `build_ftp_path` and `build_accession_path` (whose pattern only adds a
trailing `.*`): the three captured digit groups. -/
def matchShard (cs : List Char) : Option (String × String × String) :=
  match matchDB cs with
  | some (_, '_' :: r2) =>
    (take3Digits r2).bind fun p1 =>
      (take3Digits p1.2).bind fun p2 =>
        (take3Digits p2.2).bind fun p3 =>
          match p3.2 with
          | '.' :: r6 =>
            if (r6.takeWhile Char.isDigit).isEmpty then none
            else some (p1.1, p2.1, p3.1)
          | _ => none
  | _ => none

/-- `download_genomes.build_ftp_path`: `none` where the Python raises
`ValueError`. -/
def build_ftp_path (database accession_full : String) : Option String :=
  (matchShard accession_full.data).map fun g =>
    "/genomes/all/" ++ database ++ "/" ++ g.1 ++ "/" ++ g.2.1 ++ "/" ++ g.2.2 ++ "/"

/-- `download_genomes.build_accession_path`. -/
def build_accession_path (assembly_dir : String) : Option String :=
  (matchShard assembly_dir.data).map fun g =>
    "raw_data/" ++ assembly_dir.take 3 ++ "/" ++ g.1 ++ "/" ++ g.2.1 ++ "/" ++
      g.2.2 ++ "/" ++ assembly_dir ++ "/"

/-- `download_genomes.file_filters`. -/
def file_filters : List String :=
  [ "_gene_ontology.gaf.gz",
    "_genomic.fna.gz",
    "_genomic.gff.gz",
    "_protein.faa.gz",
    "_ani_contam_ranges.tsv",
    "_assembly_regions.txt",
    "_assembly_report.txt",
    "_assembly_stats.txt",
    "_gene_expression_counts.txt.gz",
    "_normalized_gene_expression_counts.txt.gz" ]

/-- The loop body of `parse_md5checksums` (`if line.strip(): parts =
line.split(); if len(parts) >= 2: checksums[...] = ...`). -/
def md5Step (checksums : List (String × String)) (line : String) :
    List (String × String) :=
  if pyStrip line ≠ "" then
    let parts := pySplit line
    if 2 ≤ parts.length then
      assocInsert checksums (pyLstripDotSlash (parts.getD 1 "")) (parts.getD 0 "")
    else checksums
  else checksums

/-- `download_genomes.parse_md5checksums`. -/
def parse_md5checksums (content : String) : List (String × String) :=
  (splitOnChar '\n' (pyStrip content)).foldl md5Step []

/-- One entry of the `resources` list of the frictionless descriptor
(`name`, `path`, `format`, `bytes`, `hash` — `hash` is `None` for files
uploaded without a published checksum). -/
structure Resource where
  name : String
  path : String
  format : String
  bytes : Nat
  hash : Option String
deriving DecidableEq

/-- The frictionless data-package descriptor built by
`create_frictionless_descriptor`.  The constant `licenses` / `sources` /
`contributors` / `citations` blocks of the Python dict are fixed literals
independent of every input and are omitted from the model. -/
structure Descriptor where
  profile : String
  name : String
  title : String
  description : String
  homepage : String
  version : String
  created : String
  resources : List Resource
deriving DecidableEq

/-- `download_genomes.create_frictionless_descriptor`.  `now` stands for
`datetime.now().isoformat()`. -/
def create_frictionless_descriptor (assembly_dir accession_full now : String)
    (downloaded_files : List Resource) : Descriptor :=
  { profile := "tabular-data-package"
    name := replaceCh '_' '-' (replaceCh '.' '-' (pyLower assembly_dir))
    title := "NCBI Genome Assembly " ++ assembly_dir
    description := "Genome assembly files for " ++ accession_full ++
      " downloaded from NCBI Datasets"
    homepage := "https://www.ncbi.nlm.nih.gov/datasets/genome/" ++ accession_full ++ "/"
    version := (splitOnChar '_' accession_full).getLastD ""
    created := now
    resources := downloaded_files }

/-- The regex `^GC[AF]_\d{9}\.\d+_.*` of
`find_assembly_directories_in_prefix` (`assembly_pattern`). -/
def assemblyPatternMatch (name : String) : Bool :=
  match matchDB name.data with
  | some (_, '_' :: r) =>
    match take3Digits r with
    | some (_, r1) =>
      match take3Digits r1 with
      | some (_, r2) =>
        match take3Digits r2 with
        | some (_, '.' :: r3) =>
          let p := r3.span Char.isDigit
          !p.1.isEmpty &&
            (match p.2 with
             | '_' :: _ => true
             | _ => false)
        | _ => false
      | _ => false
    | _ => false
  | _ => false

mutual
/-- A remote directory tree as seen by the recursive discovery walk.
`err` is a directory whose listing (`cwd` + `LIST`) raises — the code logs
a warning and abandons that subtree.  A `node` carries, per entry, the raw
`LIST` line describing it and the subtree reached by `cwd` into the name
extracted from that line. -/
inductive FTPDir where
  | err : FTPDir
  | node : FTPEntries → FTPDir

/-- The entries of one directory listing, in listing order. -/
inductive FTPEntries where
  | nil : FTPEntries
  | cons : String → FTPDir → FTPEntries → FTPEntries
end

mutual
/-- `find_assembly_directories_in_prefix.traverse_directory`: the list of
discovered assembly paths, in traversal (pre-)order. -/
def traverseDir : String → FTPDir → List String
  | _, .err => []
  | path, .node entries => traverseEntries path entries

/-- The per-line loop body of `traverse_directory`: skip lines with fewer
than 9 whitespace-delimited fields, skip non-directories, record
assembly-pattern matches as leaves, recurse into everything else. -/
def traverseEntries : String → FTPEntries → List String
  | _, .nil => []
  | path, .cons line sub rest =>
    (let parts := pySplit line
     if parts.length < 9 then []
     else if ¬ pyStartsWith line "d" then []
     else
       let name := parts.getLastD ""
       if assemblyPatternMatch name then [path ++ name ++ "/"]
       else traverseDir (path ++ name ++ "/") sub)
    ++ traverseEntries path rest
end

mutual
/-- Every name extracted from a listing line of the tree is free of `'/'`
(true of every real directory entry name). -/
def namesOk : FTPDir → Bool
  | .err => true
  | .node entries => entriesNamesOk entries

/-- `namesOk` over a list of entries. -/
def entriesNamesOk : FTPEntries → Bool
  | .nil => true
  | .cons line sub rest =>
    !((pySplit line).getLastD "").data.contains '/' && namesOk sub &&
      entriesNamesOk rest
end

/-! ## The per-assembly transfer loop of `download_genome_files`

The model covers the body of `download_genome_files` from the point where
`assembly_dir` / `accession_full` are known (lines 350–525): checksum
manifest handling, target-file filtering, the per-file skip/verify/retry
loop, and the descriptor upload.  The FTP listing, the retrieved manifest
lines, the per-attempt fetched bytes, the object store, upload faults, the
MD5 function and the JSON encoder are inputs of the model (`World`).
An uncaught exception is modelled as `some errormessage` in the second
component of the result, together with the state accumulated so far. -/

/-- The reified outcome of processing one target file — one constructor
per exit of the per-file loop body. -/
inductive FileOutcome where
  | skippedVerified : FileOutcome
  | skippedUnverifiable : FileOutcome
  | uploadedVerified : String → FileOutcome
  | uploadedUnverifiable : FileOutcome
  | failed : String → FileOutcome
deriving DecidableEq

/-- One record of the `failed_transfers` list. -/
structure FailedTransfer where
  entry : String
  filename : String
  reason : String
deriving DecidableEq

/-- One record of the `no_checksum_files` list. -/
structure NoChecksumFile where
  entry : String
  filename : String
  status : String
deriving DecidableEq

/-- The environment of one `download_genome_files` run. -/
structure World where
  /-- the object store content at the start of the run. -/
  store : List (String × String)
  /-- `NLST` listing of the assembly directory. -/
  files : List String
  /-- lines retrieved by `RETR md5checksums.txt` (consulted only when
  `"md5checksums.txt"` is in `files`). -/
  md5Lines : List String
  /-- bytes produced by `RETR <filename>` on a given attempt number, or a
  network error. -/
  fetch : String → Nat → Except String String
  /-- fault injection for `upload_file` on a given key. -/
  uploadErr : String → Option String
  /-- `compute_md5` on file bytes. -/
  md5 : String → String
  /-- `json.dump` of the descriptor. -/
  encode : Descriptor → String

/-- The mutable state accumulated by one run: the object store plus the
run's bookkeeping lists, every one appended in program order. -/
structure EngState where
  store : List (String × String)
  uploads : List String
  outcomes : List (String × FileOutcome)
  failed_transfers : List FailedTransfer
  no_checksum_files : List NoChecksumFile
  resources : List Resource
deriving DecidableEq

/-- The state at the start of a run over a given object store. -/
def emptyEngState (store : List (String × String)) : EngState :=
  ⟨store, [], [], [], [], []⟩

/-- `MinioClient.list_objects(bucket, prefix=p)` is non-empty iff some
stored key has `p` as a prefix. -/
def strStarts (p s : String) : Bool := decide (p.data <+: s.data)

/-- `s3_client.upload_file`: on success the key is overwritten in the
store and appended to the upload log; a fault leaves the state unchanged
and raises. -/
def uploadKey (w : World) (st : EngState) (key bytes : String) :
    EngState × Option String :=
  match w.uploadErr key with
  | some e => (st, some e)
  | none =>
    ({ st with store := assocInsert st.store key bytes,
               uploads := st.uploads ++ [key] }, none)

/-- `filename.split('.')[-1] if '.' in filename else "unknown"`. -/
def formatOf (filename : String) : String :=
  if filename.data.contains '.' then (splitOnChar '.' filename).getLastD ""
  else "unknown"

/-- The reason recorded in `failed_transfers` when the 3 fetch attempts
are exhausted. -/
def mismatchReason (expected actual : String) : String :=
  "Checksum mismatch after 3 attempts (expected: " ++ expected ++
    ", got: " ++ actual ++ ")"

/-- The `for attempt in range(1, 4)` retry loop of one target file.
`fuel + attempt = 4` at every call; the fuel only realises the loop
bound. -/
def fetchAttempts (w : World) (entry s3Path filename : String)
    (expected : Option String) : EngState → Nat → Nat → EngState × Option String
  | st, 0, _ => (st, none)
  | st, fuel + 1, attempt =>
    match w.fetch filename attempt with
    | .error e => (st, some e)
    | .ok bytes =>
      match expected with
      | some exp =>
        let actual := w.md5 bytes
        if actual ≠ exp then
          if attempt < 3 then
            fetchAttempts w entry s3Path filename expected st fuel (attempt + 1)
          else
            ({ st with
                failed_transfers := st.failed_transfers ++
                  [⟨entry, filename, mismatchReason exp actual⟩],
                outcomes := st.outcomes ++
                  [(filename, .failed (mismatchReason exp actual))] }, none)
        else
          match uploadKey w st (s3Path ++ filename) bytes with
          | (st', some e) => (st', some e)
          | (st', none) =>
            ({ st' with
                resources := st'.resources ++
                  [⟨filename, filename, formatOf filename, bytes.length, some actual⟩],
                outcomes := st'.outcomes ++
                  [(filename, .uploadedVerified actual)] }, none)
      | none =>
        match uploadKey w st (s3Path ++ filename) bytes with
        | (st', some e) => (st', some e)
        | (st', none) =>
          ({ st' with
              no_checksum_files := st'.no_checksum_files ++
                [⟨entry, filename, "newly_uploaded"⟩],
              resources := st'.resources ++
                [⟨filename, filename, formatOf filename, bytes.length, none⟩],
              outcomes := st'.outcomes ++
                [(filename, .uploadedUnverifiable)] }, none)

/-- The body of `for filename in target_files` (lines 392–501): the
existence check against the store, the verify-or-skip branches, and the
retry loop. -/
def processFile (w : World) (entry s3Path : String)
    (cks : List (String × String)) (st : EngState) (filename : String) :
    EngState × Option String :=
  let key := s3Path ++ filename
  let fileExists := st.store.any (fun kv => strStarts key kv.1)
  let expected := assocGet cks filename
  match fileExists, expected with
  | true, some exp =>
    match assocGet st.store key with
    | none => (st, some "minio download failed")
    | some bytes =>
      if w.md5 bytes = exp then
        ({ st with outcomes := st.outcomes ++ [(filename, .skippedVerified)] }, none)
      else
        fetchAttempts w entry s3Path filename (some exp) st 3 1
  | true, none =>
    ({ st with
        no_checksum_files := st.no_checksum_files ++
          [⟨entry, filename, "exists_in_minio"⟩],
        outcomes := st.outcomes ++ [(filename, .skippedUnverifiable)] }, none)
  | false, _ => fetchAttempts w entry s3Path filename expected st 3 1

/-- Sequential processing of the target files; the first uncaught
exception aborts the rest (there is no per-file handler in the source). -/
def processFiles (w : World) (entry s3Path : String)
    (cks : List (String × String)) : EngState → List String → EngState × Option String
  | st, [] => (st, none)
  | st, f :: fs =>
    match processFile w entry s3Path cks st f with
    | (st', some e) => (st', some e)
    | (st', none) => processFiles w entry s3Path cks st' fs

/-- The checksum-manifest block of `download_genome_files` (lines
360–380): when `md5checksums.txt` is in the listing, parse it and
unconditionally re-upload it; otherwise only a warning is logged.  Returns
the parsed ledger, the state, and a possible upload fault. -/
def md5Phase (w : World) (s3Path : String) :
    List (String × String) × EngState × Option String :=
  if w.files.contains "md5checksums.txt" then
    let content := String.intercalate "\n" w.md5Lines
    let cks := parse_md5checksums content
    match uploadKey w (emptyEngState w.store) (s3Path ++ "md5checksums.txt") content with
    | (st', e) => (cks, st', e)
  else ([], emptyEngState w.store, none)

/-- The descriptor block of `download_genome_files` (lines 505–525): build
and upload `datapackage.json` only when at least one file was uploaded. -/
def descriptorPhase (w : World) (assembly_dir accession_full now s3Path : String)
    (st2 : EngState) : EngState × Option String :=
  if st2.resources.isEmpty then (st2, none)
  else
    match uploadKey w st2 (s3Path ++ "datapackage.json")
        (w.encode (create_frictionless_descriptor assembly_dir accession_full now
          st2.resources)) with
    | (st3, e) => (st3, e)

/-- `download_genome_files` from line 350 (`s3_path = ...`) to line 525:
checksum-manifest download and re-upload, target filtering, the per-file
loop, and the conditional descriptor upload.  `entry` is the worklist item
used in the bookkeeping records, `now` the descriptor timestamp. -/
def download_genome_files (w : World)
    (entry assembly_dir accession_full now : String) : EngState × Option String :=
  match build_accession_path assembly_dir with
  | none => (emptyEngState w.store, some ("Cannot parse accession: " ++ assembly_dir))
  | some accPath =>
    let s3Path := minioPathBase ++ accPath
    match md5Phase w s3Path with
    | (_, st1, some e) => (st1, some e)
    | (cks, st1, none) =>
      let target_files := w.files.filter (fun f => file_filters.any (fun suf => pyEndsWith f suf))
      if target_files.isEmpty then (st1, none)
      else
        match processFiles w entry s3Path cks st1 target_files with
        | (st2, some e) => (st2, some e)
        | (st2, none) => descriptorPhase w assembly_dir accession_full now s3Path st2

/-! ## Basic lemmas about the string helpers -/

lemma dropWhile_all_false {p : Char → Bool} :
    ∀ {l : List Char}, (∀ c ∈ l, p c = false) → l.dropWhile p = l
  | [], _ => rfl
  | c :: cs, h => by
    have hc : p c = false := h c (List.mem_cons_self _ _)
    simp [List.dropWhile, hc]

lemma takeWhile_all_true {p : Char → Bool} :
    ∀ {l : List Char}, (∀ c ∈ l, p c = true) → l.takeWhile p = l
  | [], _ => rfl
  | c :: cs, h => by
    have hc : p c = true := h c (List.mem_cons_self _ _)
    have ih := @takeWhile_all_true p cs (fun x hx => h x (List.mem_cons_of_mem _ hx))
    simp [List.takeWhile, hc, ih]

lemma takeWhile_append_of_all {p : Char → Bool} :
    ∀ {l : List Char} (r : List Char), (∀ c ∈ l, p c = true) →
      (l ++ r).takeWhile p = l ++ r.takeWhile p
  | [], r, _ => rfl
  | c :: cs, r, h => by
    have hc : p c = true := h c (List.mem_cons_self _ _)
    have ih := @takeWhile_append_of_all p cs r
      (fun x hx => h x (List.mem_cons_of_mem _ hx))
    simp [List.takeWhile, hc, ih]

lemma pyStrip_eq_self {s : String} (h : ∀ c ∈ s.data, pyIsSpace c = false) :
    pyStrip s = s := by
  unfold pyStrip
  rw [dropWhile_all_false h, dropWhile_all_false
    (fun c hc => h c (List.mem_reverse.mp hc)), List.reverse_reverse]

lemma not_digit_of_space {c : Char} (h : pyIsSpace c = true) : c.isDigit = false := by
  simp only [pyIsSpace, Bool.or_eq_true, decide_eq_true_eq] at h
  rcases h with ((((rfl | rfl) | rfl) | rfl) | rfl) | rfl <;> rfl

lemma not_space_of_digit {c : Char} (h : c.isDigit = true) : pyIsSpace c = false := by
  cases hps : pyIsSpace c
  · rfl
  · rw [not_digit_of_space hps] at h
    exact absurd h (by simp)

/-! ## Claim C6 — `build_ftp_path` shard derivation -/

lemma take3Digits_append {l : List Char} (r : List Char) (h3 : l.length = 3)
    (hd : ∀ c ∈ l, c.isDigit = true) :
    take3Digits (l ++ r) = some (String.mk l, r) := by
  match l with
  | [a, b, c] =>
    have ha : a.isDigit = true := hd a (by simp)
    have hb : b.isDigit = true := hd b (by simp)
    have hc : c.isDigit = true := hd c (by simp)
    simp [take3Digits, ha, hb, hc]
  | [] => simp at h3
  | [_] => simp at h3
  | [_, _] => simp at h3
  | _ :: _ :: _ :: _ :: _ => simp at h3

lemma take3Digits_sound {l : List Char} {g : String} {r : List Char}
    (h : take3Digits l = some (g, r)) :
    ∃ cs, l = cs ++ r ∧ cs.length = 3 ∧ (∀ c ∈ cs, c.isDigit = true) ∧
      g = String.mk cs := by
  match l with
  | [] => exact absurd h (by simp [take3Digits])
  | [_] => exact absurd h (by simp [take3Digits])
  | [_, _] => exact absurd h (by simp [take3Digits])
  | a :: b :: c :: rest =>
    rw [take3Digits] at h
    by_cases hd : (a.isDigit && b.isDigit && c.isDigit) = true
    · rw [if_pos hd] at h
      simp only [Option.some.injEq, Prod.mk.injEq] at h
      obtain ⟨hg, hr⟩ := h
      refine ⟨[a, b, c], by simp [hr], rfl, ?_, hg.symm⟩
      have hd' := hd
      simp only [Bool.and_eq_true] at hd'
      intro x hx
      simp only [List.mem_cons, List.not_mem_nil, or_false] at hx
      rcases hx with rfl | rfl | rfl
      · exact hd'.1.1
      · exact hd'.1.2
      · exact hd'.2
    · rw [if_neg hd] at h
      exact absurd h (by simp)

lemma digit_dot_decomp {A B r s : List Char} (hA : ∀ c ∈ A, c.isDigit = true)
    (hB : ∀ c ∈ B, c.isDigit = true) (h : A ++ '.' :: r = B ++ '.' :: s) :
    A = B ∧ r = s := by
  induction A generalizing B with
  | nil =>
    cases B with
    | nil => simpa using h
    | cons x B' =>
      have hx : x.isDigit = true := hB x (by simp)
      simp only [List.nil_append, List.cons_append, List.cons.injEq] at h
      rw [← h.1] at hx
      exact absurd hx (by decide)
  | cons a A' ih =>
    cases B with
    | nil =>
      have ha : a.isDigit = true := hA a (by simp)
      simp only [List.nil_append, List.cons_append, List.cons.injEq] at h
      rw [h.1] at ha
      exact absurd ha (by decide)
    | cons x B' =>
      simp only [List.cons_append, List.cons.injEq] at h
      obtain ⟨rfl, h2⟩ := h
      have hrec := ih (fun c hc => hA c (List.mem_cons_of_mem _ hc))
        (fun c hc => hB c (List.mem_cons_of_mem _ hc)) h2
      exact ⟨by rw [hrec.1], hrec.2⟩

lemma matchShard_of_nine {db idn ver : String}
    (hdb : db = "GCA" ∨ db = "GCF")
    (hid : ∀ c ∈ idn.data, c.isDigit = true)
    (hver : ∀ c ∈ ver.data, c.isDigit = true) (hverne : ver ≠ "")
    (h9 : idn.data.length = 9) :
    matchShard (db.data ++ '_' :: (idn.data ++ '.' :: ver.data)) =
      some (String.mk (idn.data.take 3), String.mk ((idn.data.drop 3).take 3),
        String.mk (idn.data.drop 6)) := by
  have hsplit : idn.data = idn.data.take 3 ++ ((idn.data.drop 3).take 3 ++ idn.data.drop 6) := by
    have h1 := List.take_append_drop 3 idn.data
    have h2 := List.take_append_drop 3 (idn.data.drop 3)
    rw [List.drop_drop] at h2
    norm_num at h2
    conv_rhs => rw [h2]
    exact h1.symm
  have ht3 : (idn.data.take 3).length = 3 := by
    rw [List.length_take]; omega
  have hm3 : ((idn.data.drop 3).take 3).length = 3 := by
    rw [List.length_take, List.length_drop]; omega
  have hd6 : (idn.data.drop 6).length = 3 := by
    rw [List.length_drop]; omega
  have hdig1 : ∀ c ∈ idn.data.take 3, c.isDigit = true :=
    fun c hc => hid c (List.take_subset _ _ hc)
  have hdig2 : ∀ c ∈ (idn.data.drop 3).take 3, c.isDigit = true :=
    fun c hc => hid c (List.drop_subset _ _ (List.take_subset _ _ hc))
  have hdig3 : ∀ c ∈ idn.data.drop 6, c.isDigit = true :=
    fun c hc => hid c (List.drop_subset _ _ hc)
  have hverd : ver.data ≠ [] := by
    intro hh
    exact hverne (show ver = "" from congrArg String.mk hh)
  rcases hdb with rfl | rfl <;>
  · show matchShard ('G' :: _ :: _ :: '_' :: (idn.data ++ '.' :: ver.data)) = _
    simp only [matchShard, matchDB]
    conv_lhs => rw [hsplit]
    simp only [List.append_assoc]
    rw [take3Digits_append _ ht3 hdig1]
    simp only [Option.bind]
    rw [take3Digits_append _ hm3 hdig2]
    simp only [Option.bind]
    rw [take3Digits_append _ hd6 hdig3]
    simp only [Option.bind]
    rw [takeWhile_all_true hver]
    simp [List.isEmpty_iff, hverd]

lemma matchShard_not_nine {db idn ver : String}
    (hdb : db = "GCA" ∨ db = "GCF")
    (hid : ∀ c ∈ idn.data, c.isDigit = true)
    (h9 : idn.data.length ≠ 9) :
    matchShard (db.data ++ '_' :: (idn.data ++ '.' :: ver.data)) = none := by
  rcases hdb with rfl | rfl <;>
  · show matchShard ('G' :: _ :: _ :: '_' :: (idn.data ++ '.' :: ver.data)) = _
    simp only [matchShard, matchDB]
    rcases h1 : take3Digits (idn.data ++ '.' :: ver.data) with _ | ⟨g1, r3⟩
    · rfl
    simp only [Option.bind]
    rcases h2 : take3Digits r3 with _ | ⟨g2, r4⟩
    · rfl
    simp only [Option.bind]
    rcases h3 : take3Digits r4 with _ | ⟨g3, r5⟩
    · rfl
    simp only [Option.bind]
    obtain ⟨cs1, he1, hl1, hdi1, _⟩ := take3Digits_sound h1
    obtain ⟨cs2, he2, hl2, hdi2, _⟩ := take3Digits_sound h2
    obtain ⟨cs3, he3, hl3, hdi3, _⟩ := take3Digits_sound h3
    have hnotdot : ∀ ch r6, r5 = ch :: r6 → ch ≠ '.' := by
      intro ch r6 hr5 hch
      subst hch
      subst hr5
      have hR : idn.data ++ '.' :: ver.data = (cs1 ++ cs2 ++ cs3) ++ '.' :: r6 := by
        rw [he1, he2, he3]
        simp [List.append_assoc]
      have hdigs : ∀ c ∈ cs1 ++ cs2 ++ cs3, c.isDigit = true := by
        intro c hc
        rcases List.mem_append.mp hc with hc' | hc'
        · rcases List.mem_append.mp hc' with hc'' | hc''
          · exact hdi1 c hc''
          · exact hdi2 c hc''
        · exact hdi3 c hc'
      have hidn := (digit_dot_decomp hid hdigs hR).1
      apply h9
      rw [hidn]
      simp [hl1, hl2, hl3]
    cases r5 with
    | nil => rfl
    | cons ch r6 =>
      by_cases hch : ch = '.'
      · exact absurd hch (hnotdot ch r6 rfl)
      · split
        · rename_i heq
          simp only [List.cons.injEq] at heq
          exact absurd heq.1 hch
        · rfl

lemma accession_data (db idn ver : String) :
    (db ++ "_" ++ idn ++ "." ++ ver).data =
      db.data ++ '_' :: (idn.data ++ '.' :: ver.data) := by
  simp [String.data_append]

/-- **C6.** For a canonical accession `{db}_{id}.{ver}` whose numeric id
has exactly 9 digits, `build_ftp_path` returns
`/genomes/all/{db}/{g1}/{g2}/{g3}/` where the three groups are of exactly
three digits each and concatenate back to the id without loss; whenever
the numeric id before the version separator is not exactly 9 digits,
`build_ftp_path` fails. -/
theorem claim6_shard_path (db idn ver : String)
    (hdb : db = "GCA" ∨ db = "GCF")
    (hid : ∀ c ∈ idn.data, c.isDigit = true)
    (hver : ∀ c ∈ ver.data, c.isDigit = true) (hverne : ver ≠ "") :
    (idn.length = 9 →
      ∃ g1 g2 g3,
        build_ftp_path db (db ++ "_" ++ idn ++ "." ++ ver) =
          some ("/genomes/all/" ++ db ++ "/" ++ g1 ++ "/" ++ g2 ++ "/" ++ g3 ++ "/") ∧
        g1 ++ g2 ++ g3 = idn ∧
        g1.length = 3 ∧ g2.length = 3 ∧ g3.length = 3 ∧
        (∀ c ∈ g1.data, c.isDigit = true) ∧ (∀ c ∈ g2.data, c.isDigit = true) ∧
        (∀ c ∈ g3.data, c.isDigit = true)) ∧
    (idn.length ≠ 9 →
      build_ftp_path db (db ++ "_" ++ idn ++ "." ++ ver) = none) := by
  constructor
  · intro h9
    have h9' : idn.data.length = 9 := h9
    refine ⟨String.mk (idn.data.take 3), String.mk ((idn.data.drop 3).take 3),
      String.mk (idn.data.drop 6), ?_, ?_, ?_, ?_, ?_, ?_, ?_, ?_⟩
    · rw [build_ftp_path, accession_data, matchShard_of_nine hdb hid hver hverne h9]
      rfl
    · apply String.ext
      show idn.data.take 3 ++ (idn.data.drop 3).take 3 ++ idn.data.drop 6 = idn.data
      have h1 := List.take_append_drop 3 idn.data
      have h2 := List.take_append_drop 3 (idn.data.drop 3)
      rw [List.drop_drop] at h2
      norm_num at h2
      rw [List.append_assoc, h2, h1]
    · show (idn.data.take 3).length = 3
      rw [List.length_take]; exact by omega
    · show ((idn.data.drop 3).take 3).length = 3
      rw [List.length_take, List.length_drop]; exact by omega
    · show (idn.data.drop 6).length = 3
      rw [List.length_drop]; exact by omega
    · exact fun c hc => hid c (List.take_subset _ _ hc)
    · exact fun c hc => hid c (List.drop_subset _ _ (List.take_subset _ _ hc))
    · exact fun c hc => hid c (List.drop_subset _ _ hc)
  · intro h9
    rw [build_ftp_path, accession_data, matchShard_not_nine hdb hid h9]
    rfl

/-- Witness for C6 at the spec's own scenario accession `GCA_000195005.1`
(and a 7-digit id for the failure side). -/
theorem claim6_shard_path_witness :
    (∃ g1 g2 g3,
        build_ftp_path "GCA" ("GCA" ++ "_" ++ "000195005" ++ "." ++ "1") =
          some ("/genomes/all/" ++ "GCA" ++ "/" ++ g1 ++ "/" ++ g2 ++ "/" ++ g3 ++ "/") ∧
        g1 ++ g2 ++ g3 = "000195005" ∧
        g1.length = 3 ∧ g2.length = 3 ∧ g3.length = 3 ∧
        (∀ c ∈ g1.data, c.isDigit = true) ∧ (∀ c ∈ g2.data, c.isDigit = true) ∧
        (∀ c ∈ g3.data, c.isDigit = true)) ∧
    build_ftp_path "GCA" ("GCA" ++ "_" ++ "0001950" ++ "." ++ "1") = none :=
  ⟨(claim6_shard_path "GCA" "000195005" "1" (Or.inl rfl) (by decide) (by decide)
      (by decide)).1 (by decide),
   (claim6_shard_path "GCA" "0001950" "1" (Or.inl rfl) (by decide) (by decide)
      (by decide)).2 (by decide)⟩

/-! ## Claims C7 and C9 — `parse_accession` -/

/-- The optional registry prefix as written in the input string. -/
def pfxStr : Option String → String
  | none => ""
  | some p => p ++ "_"

lemma matchFull_gca (rest : List Char) : matchFull ('G' :: 'C' :: 'A' :: rest) = none := rfl

lemma matchFull_gcf (rest : List Char) : matchFull ('G' :: 'C' :: 'F' :: rest) = none := rfl

lemma matchBare_valid (db idn ver : String) (tail : List Char)
    (hdb : db = "GCA" ∨ db = "GCF")
    (hid : ∀ c ∈ idn.data, c.isDigit = true)
    (hver : ∀ c ∈ ver.data, c.isDigit = true)
    (htail : tail = [] ∨ ∃ c cs, tail = c :: cs ∧ isDigitDot c = false) :
    matchBare ((db ++ "_" ++ idn ++ "." ++ ver).data ++ tail) =
      some (db, idn ++ "." ++ ver) := by
  have hall : ∀ c ∈ idn.data ++ '.' :: ver.data, isDigitDot c = true := by
    intro c hc
    rcases List.mem_append.mp hc with h | h
    · simp [isDigitDot, hid c h]
    · rcases List.mem_cons.mp h with rfl | h
      · rfl
      · simp [isDigitDot, hver c h]
  have htw : ((idn.data ++ '.' :: ver.data) ++ tail).takeWhile isDigitDot =
      idn.data ++ '.' :: ver.data := by
    rw [takeWhile_append_of_all _ hall]
    rcases htail with rfl | ⟨c, cs, rfl, hc⟩
    · simp
    · simp [List.takeWhile, hc]
  have hne : (idn.data ++ '.' :: ver.data).isEmpty = false := by
    cases idn.data <;> rfl
  have hmk : String.mk (idn.data ++ '.' :: ver.data) = idn ++ "." ++ ver := by
    apply String.ext
    simp [String.data_append]
  rcases hdb with rfl | rfl
  · rw [show ("GCA" ++ "_" ++ idn ++ "." ++ ver).data ++ tail =
          'G' :: 'C' :: 'A' :: '_' :: ((idn.data ++ '.' :: ver.data) ++ tail) from by
        rw [accession_data]; simp [List.append_assoc]]
    simp only [matchBare, matchDB, htw, hne, Bool.false_eq_true, if_false, hmk]
  · rw [show ("GCF" ++ "_" ++ idn ++ "." ++ ver).data ++ tail =
          'G' :: 'C' :: 'F' :: '_' :: ((idn.data ++ '.' :: ver.data) ++ tail) from by
        rw [accession_data]; simp [List.append_assoc]]
    simp only [matchBare, matchDB, htw, hne, Bool.false_eq_true, if_false, hmk]

lemma no_space_letters {c : Char}
    (h : c ∈ ['G', 'C', 'A', 'F', 'B', 'R', 'S', '_', '.']) : pyIsSpace c = false := by
  fin_cases h <;> rfl

/-- Shared engine of C7 and C9: parsing an optionally-prefixed accession
followed by a tail that does not extend the digit/dot run. -/
lemma parse_accession_core (pfx : Option String) (db idn ver tailS : String)
    (hpfx : pfx = none ∨ pfx = some "GB" ∨ pfx = some "RS")
    (hdb : db = "GCA" ∨ db = "GCF")
    (hid : ∀ c ∈ idn.data, c.isDigit = true)
    (hver : ∀ c ∈ ver.data, c.isDigit = true)
    (htS : ∀ c ∈ tailS.data, pyIsSpace c = false)
    (htH : tailS.data = [] ∨ ∃ c cs, tailS.data = c :: cs ∧ isDigitDot c = false) :
    parse_accession (pfxStr pfx ++ (db ++ "_" ++ idn ++ "." ++ ver) ++ tailS) =
      some (pfx, db, db ++ "_" ++ (idn ++ "." ++ ver)) := by
  set s := pfxStr pfx ++ (db ++ "_" ++ idn ++ "." ++ ver) ++ tailS with hsdef
  have hs : s.data = (pfxStr pfx).data ++
      ((db ++ "_" ++ idn ++ "." ++ ver).data ++ tailS.data) := by
    simp [hsdef, String.data_append]
  have hclean : ∀ c ∈ s.data, pyIsSpace c = false := by
    intro c hc
    rw [hs] at hc
    rcases List.mem_append.mp hc with hc1 | hc2
    · rcases hpfx with rfl | rfl | rfl

      · simp [pfxStr] at hc1
      · have : c ∈ ['G', 'C', 'A', 'F', 'B', 'R', 'S', '_', '.'] := by
          have : c ∈ ['G', 'B', '_'] := hc1
          fin_cases this <;> simp
        exact no_space_letters this
      · have : c ∈ ['G', 'C', 'A', 'F', 'B', 'R', 'S', '_', '.'] := by
          have : c ∈ ['R', 'S', '_'] := hc1
          fin_cases this <;> simp
        exact no_space_letters this
    · rcases List.mem_append.mp hc2 with hc3 | hc4
      · rw [accession_data] at hc3
        rcases List.mem_append.mp hc3 with hdbm | hrest
        · have hdbl : c ∈ ['G', 'C', 'A', 'F', 'B', 'R', 'S', '_', '.'] := by
            rcases hdb with rfl | rfl
            · have : c ∈ ['G', 'C', 'A'] := hdbm
              fin_cases this <;> simp
            · have : c ∈ ['G', 'C', 'F'] := hdbm
              fin_cases this <;> simp
          exact no_space_letters hdbl
        · rcases List.mem_cons.mp hrest with rfl | hrest2
          · rfl
          · rcases List.mem_append.mp hrest2 with hidm | hdotver
            · exact not_space_of_digit (hid c hidm)
            · rcases List.mem_cons.mp hdotver with rfl | hverm
              · rfl
              · exact not_space_of_digit (hver c hverm)
      · exact htS c hc4
  have hstrip : pyStrip s = s := pyStrip_eq_self hclean
  rw [parse_accession]
  rw [hstrip]
  rcases hpfx with rfl | rfl | rfl
  · have hsd : s.data = (db ++ "_" ++ idn ++ "." ++ ver).data ++ tailS.data := by
      rw [hs]; rfl
    have hmf : matchFull s.data = none := by
      rw [hsd, accession_data]
      rcases hdb with rfl | rfl
      · rw [show ("GCA".data ++ '_' :: (idn.data ++ '.' :: ver.data)) ++ tailS.data =
              'G' :: 'C' :: 'A' :: ('_' :: (idn.data ++ '.' :: ver.data) ++ tailS.data) from by
            simp [List.append_assoc]]
        exact matchFull_gca _
      · rw [show ("GCF".data ++ '_' :: (idn.data ++ '.' :: ver.data)) ++ tailS.data =
              'G' :: 'C' :: 'F' :: ('_' :: (idn.data ++ '.' :: ver.data) ++ tailS.data) from by
            simp [List.append_assoc]]
        exact matchFull_gcf _
    have hmb : matchBare s.data = some (db, idn ++ "." ++ ver) := by
      rw [hsd]
      exact matchBare_valid db idn ver tailS.data hdb hid hver htH
    rw [hmf, hmb]
  · have hsd : s.data = 'G' :: 'B' :: '_' ::
        ((db ++ "_" ++ idn ++ "." ++ ver).data ++ tailS.data) := by
      rw [hs]; rfl
    have hmf : matchFull s.data =
        some ("GB", db, idn ++ "." ++ ver) := by
      rw [hsd]
      show (matchBare _).map _ = _
      rw [matchBare_valid db idn ver tailS.data hdb hid hver htH]
      rfl
    rw [hmf]
  · have hsd : s.data = 'R' :: 'S' :: '_' ::
        ((db ++ "_" ++ idn ++ "." ++ ver).data ++ tailS.data) := by
      rw [hs]; rfl
    have hmf : matchFull s.data =
        some ("RS", db, idn ++ "." ++ ver) := by
      rw [hsd]
      show (matchBare _).map _ = _
      rw [matchBare_valid db idn ver tailS.data hdb hid hver htH]
      rfl
    rw [hmf]

lemma data_empty : ("" : String).data = [] := rfl

/-- **C7.** Every valid accession string in either grammar parses, and
re-parsing the returned canonical accession yields the same database code
and the same canonical accession. -/
theorem claim7_parse_roundtrip (pfx : Option String) (db idn ver : String)
    (hpfx : pfx = none ∨ pfx = some "GB" ∨ pfx = some "RS")
    (hdb : db = "GCA" ∨ db = "GCF")
    (hid : ∀ c ∈ idn.data, c.isDigit = true) (hidne : idn ≠ "")
    (hver : ∀ c ∈ ver.data, c.isDigit = true) (hverne : ver ≠ "") :
    parse_accession (pfxStr pfx ++ (db ++ "_" ++ idn ++ "." ++ ver)) =
      some (pfx, db, db ++ "_" ++ (idn ++ "." ++ ver)) ∧
    parse_accession (db ++ "_" ++ (idn ++ "." ++ ver)) =
      some (none, db, db ++ "_" ++ (idn ++ "." ++ ver)) := by
  have hempty : ∀ c ∈ ("" : String).data, pyIsSpace c = false := by
    intro c hc
    rw [data_empty] at hc
    exact absurd hc (List.not_mem_nil c)
  constructor
  · have h := parse_accession_core pfx db idn ver "" hpfx hdb hid hver hempty (Or.inl rfl)
    rw [show pfxStr pfx ++ (db ++ "_" ++ idn ++ "." ++ ver) ++ "" =
          pfxStr pfx ++ (db ++ "_" ++ idn ++ "." ++ ver) from
        String.ext (by simp [String.data_append, data_empty])] at h
    exact h
  · have h := parse_accession_core none db idn ver "" (Or.inl rfl) hdb hid hver hempty
      (Or.inl rfl)
    rw [show pfxStr none ++ (db ++ "_" ++ idn ++ "." ++ ver) ++ "" =
          db ++ "_" ++ (idn ++ "." ++ ver) from
        String.ext (by simp [pfxStr, String.data_append, data_empty])] at h
    exact h

/-- Witness for C7 at the spec's scenario accessions `GB_GCA_000195005.1`
and `GCA_000195005.1`. -/
theorem claim7_parse_roundtrip_witness :
    parse_accession (pfxStr (some "GB") ++ ("GCA" ++ "_" ++ "000195005" ++ "." ++ "1")) =
      some (some "GB", "GCA", "GCA" ++ "_" ++ ("000195005" ++ "." ++ "1")) ∧
    parse_accession ("GCA" ++ "_" ++ ("000195005" ++ "." ++ "1")) =
      some (none, "GCA", "GCA" ++ "_" ++ ("000195005" ++ "." ++ "1")) :=
  claim7_parse_roundtrip (some "GB") "GCA" "000195005" "1" (Or.inr (Or.inl rfl))
    (Or.inl rfl) (by decide) (by decide) (by decide) (by decide)

/-- **C9 counterexample.** `"GCA_000195005.12"` begins with the valid
accession `GCA_000195005.1` followed by the trailing character `2`, yet
`parse_accession` returns canonical accession `GCA_000195005.12` — the
greedy `[\d.]+` swallows the trailing digit — and not the accession
embedded at the start of the string as the claim states. -/
theorem claim9_counterexample :
    ("GCA_000195005.1" ++ "2" : String) = "GCA_000195005.12" ∧
    parse_accession ("GCA_000195005.1" ++ "2") =
      some (none, "GCA", "GCA_000195005.12") ∧
    parse_accession ("GCA_000195005.1" ++ "2") ≠
      some (none, "GCA", "GCA_000195005.1") :=
  ⟨by decide, by decide, by decide⟩

/-- **C9 (amended).** `parse_accession` does not anchor the grammar at the
end of the input: a valid accession followed by trailing characters whose
first character is neither a digit nor `'.'` (such as the `_<suffix>` of
an assembly directory name) parses successfully to the accession embedded
at the start of the string. -/
theorem claim9_amended (pfx : Option String) (db idn ver tailS : String)
    (hpfx : pfx = none ∨ pfx = some "GB" ∨ pfx = some "RS")
    (hdb : db = "GCA" ∨ db = "GCF")
    (hid : ∀ c ∈ idn.data, c.isDigit = true)
    (hver : ∀ c ∈ ver.data, c.isDigit = true)
    (htS : ∀ c ∈ tailS.data, pyIsSpace c = false)
    (htH : tailS.data = [] ∨ ∃ c cs, tailS.data = c :: cs ∧ isDigitDot c = false) :
    parse_accession (pfxStr pfx ++ (db ++ "_" ++ idn ++ "." ++ ver) ++ tailS) =
      some (pfx, db, db ++ "_" ++ (idn ++ "." ++ ver)) :=
  parse_accession_core pfx db idn ver tailS hpfx hdb hid hver htS htH

/-- Witness for C9 at the assembly directory name
`GCA_000195005.1_ASM19500v1`. -/
theorem claim9_amended_witness :
    parse_accession (pfxStr none ++ ("GCA" ++ "_" ++ "000195005" ++ "." ++ "1") ++
        "_ASM19500v1") =
      some (none, "GCA", "GCA" ++ "_" ++ ("000195005" ++ "." ++ "1")) :=
  claim9_amended none "GCA" "000195005" "1" "_ASM19500v1" (Or.inl rfl) (Or.inl rfl)
    (by decide) (by decide) (by decide)
    (Or.inr ⟨'_', "ASM19500v1".data, by decide, by decide⟩)

/-! ## Claim C8 — `parse_md5checksums` -/

/-- The contribution of one manifest line, read off the loop body of
`parse_md5checksums`: a line with at least two whitespace-delimited
tokens contributes `(second token with every leading '.' or '/' char
dropped) ↦ (first token)`; any other line contributes nothing. -/
def lineEntry (line : String) : Option (String × String) :=
  if pyStrip line ≠ "" then
    if 2 ≤ (pySplit line).length then
      some (pyLstripDotSlash ((pySplit line).getD 1 ""), (pySplit line).getD 0 "")
    else none
  else none

/-- The claim's reading of the path normalisation: strip one leading
literal `"./"` occurrence (modelled from the claim's words, for comparison
with the code's `pyLstripDotSlash`). -/
def stripLeadingDotSlash (s : String) : String :=
  if pyStartsWith s "./" then String.mk (s.data.drop 2) else s

lemma assocGet_cons (x : String × String) (l : List (String × String)) (k : String) :
    assocGet (x :: l) k = if x.1 = k then some x.2 else assocGet l k := by
  by_cases h : x.1 = k <;> simp [assocGet, List.find?_cons, h]

lemma assocGet_insert (d : List (String × String)) (k' v k : String) :
    assocGet (assocInsert d k' v) k = if k' = k then some v else assocGet d k := by
  induction d with
  | nil =>
    by_cases h : k' = k <;> simp [assocInsert, assocGet_cons, assocGet, h]
  | cons kv rest ih =>
    by_cases h1 : kv.1 = k'
    · rw [assocInsert, if_pos h1]
      by_cases h2 : k' = k
      · simp [assocGet_cons, h2]
      · rw [assocGet_cons, assocGet_cons, if_neg h2]
        have : kv.1 = k ↔ False := by
          constructor
          · intro hk; exact h2 (h1 ▸ hk)
          · exact False.elim
        simp [this, h2]
    · rw [assocInsert, if_neg h1]
      rw [assocGet_cons, assocGet_cons, ih]
      by_cases h2 : kv.1 = k
      · have : ¬ k' = k := fun hk => h1 (by rw [h2, hk])
        simp [h2, this]
      · simp [h2]

lemma assocGet_foldl_insert (es : List (String × String)) :
    ∀ (d : List (String × String)) (k : String),
      assocGet (es.foldl (fun d e => assocInsert d e.1 e.2) d) k =
        ((es.reverse.find? (fun e => e.1 = k)).map (fun e => e.2)).or (assocGet d k) := by
  induction es with
  | nil => intro d k; simp
  | cons e es ih =>
    intro d k
    rw [List.foldl_cons, ih, List.reverse_cons, List.find?_append]
    cases hf : es.reverse.find? (fun x => x.1 = k) <;>
      by_cases h : e.1 = k <;>
        simp [List.find?_cons, h, assocGet_insert, hf]

lemma md5Step_eq (d : List (String × String)) (l : String) :
    md5Step d l = match lineEntry l with
      | some e => assocInsert d e.1 e.2
      | none => d := by
  by_cases h1 : pyStrip l ≠ ""
  · by_cases h2 : 2 ≤ (pySplit l).length
    · simp [md5Step, lineEntry, h1, h2]
    · simp [md5Step, lineEntry, h1, h2]
  · simp [md5Step, lineEntry, h1]

lemma parse_md5_foldl (lines : List String) :
    ∀ d, lines.foldl md5Step d
      = (lines.filterMap lineEntry).foldl (fun d e => assocInsert d e.1 e.2) d := by
  induction lines with
  | nil => intro d; rfl
  | cons l ls ih =>
    intro d
    rw [List.foldl_cons, List.filterMap_cons, md5Step_eq]
    cases he : lineEntry l
    · rw [ih]
    · rw [List.foldl_cons, ih]

/-- **C8 (amended).** `parse_md5checksums` is a total function and its
result, as a key/value mapping, is exactly: for each key, the value of the
*last* line with at least two whitespace-delimited tokens whose stripped
second token equals the key (all leading `'.'`/`'/'` characters of the
second token stripped, Python `lstrip('./')` character-set semantics);
lines with fewer than two tokens contribute no entry at all. -/
theorem claim8_md5_ledger (content : String) (k : String) :
    assocGet (parse_md5checksums content) k =
      ((((splitOnChar '\n' (pyStrip content)).filterMap lineEntry).reverse.find?
          (fun e => e.1 = k)).map (fun e => e.2)).or none := by
  rw [parse_md5checksums, parse_md5_foldl, assocGet_foldl_insert]
  rfl

/-- **C8 counterexample.** On the line `"abc ..foo"` the code's
`lstrip('./')` drops *both* leading dots (character-set semantics), so the
recorded key is `"foo"`; the claim's reading — strip a leading `"./"`
occurrence — would leave `"..foo"` unchanged, and no entry with that key
exists. -/
theorem claim8_counterexample :
    parse_md5checksums "abc ..foo" = [("foo", "abc")] ∧
    stripLeadingDotSlash "..foo" = "..foo" ∧
    assocGet (parse_md5checksums "abc ..foo") (stripLeadingDotSlash "..foo") = none ∧
    assocGet (parse_md5checksums "abc ..foo") "foo" = some "abc" :=
  ⟨by decide, by decide, by decide, by decide⟩

/-! ## Engine lemmas: where uploads can come from -/

lemma uploadKey_fst_uploads (w : World) (st : EngState) (key b : String) :
    (uploadKey w st key b).1.uploads = st.uploads ∨
    (uploadKey w st key b).1.uploads = st.uploads ++ [key] := by
  unfold uploadKey
  cases w.uploadErr key
  · right; rfl
  · left; rfl

lemma uploadKey_fst_resources (w : World) (st : EngState) (key b : String) :
    (uploadKey w st key b).1.resources = st.resources := by
  unfold uploadKey
  cases w.uploadErr key <;> rfl

lemma mem_uploads_uploadKey {w : World} {st : EngState} {key b k : String}
    (h : k ∈ (uploadKey w st key b).1.uploads) : k ∈ st.uploads ∨ k = key := by
  rcases uploadKey_fst_uploads w st key b with h' | h' <;> rw [h'] at h
  · exact Or.inl h
  · rcases List.mem_append.mp h with h2 | h2
    · exact Or.inl h2
    · exact Or.inr (List.mem_singleton.mp h2)

lemma mem_uploads_fetchAttempts {w : World} {entry s3 f : String}
    {exp : Option String} :
    ∀ (fuel attempt : Nat) (st : EngState) (k : String),
      k ∈ (fetchAttempts w entry s3 f exp st fuel attempt).1.uploads →
      k ∈ st.uploads ∨ k = s3 ++ f := by
  intro fuel
  induction fuel with
  | zero => intro attempt st k h; exact Or.inl h
  | succ n ih =>
    intro attempt st k h
    rw [fetchAttempts] at h
    cases hf : w.fetch f attempt with
    | error e => simp only [hf] at h; exact Or.inl h
    | ok bytes =>
      simp only [hf] at h
      cases exp with
      | some e =>
        simp only [] at h
        by_cases hne : w.md5 bytes ≠ e
        · rw [if_pos hne] at h
          by_cases hlt : attempt < 3
          · rw [if_pos hlt] at h
            exact ih (attempt + 1) st k h
          · rw [if_neg hlt] at h
            exact Or.inl h
        · rw [if_neg hne] at h
          rcases huk : uploadKey w st (s3 ++ f) bytes with ⟨st', e'⟩
          cases e' with
          | some e2 =>
            simp only [huk] at h
            have hk : k ∈ (uploadKey w st (s3 ++ f) bytes).1.uploads := by
              rw [huk]; exact h
            exact mem_uploads_uploadKey hk
          | none =>
            simp only [huk] at h
            have hk : k ∈ (uploadKey w st (s3 ++ f) bytes).1.uploads := by
              rw [huk]; exact h
            exact mem_uploads_uploadKey hk
      | none =>
        simp only [] at h
        rcases huk : uploadKey w st (s3 ++ f) bytes with ⟨st', e'⟩
        cases e' with
        | some e2 =>
          simp only [huk] at h
          have hk : k ∈ (uploadKey w st (s3 ++ f) bytes).1.uploads := by
            rw [huk]; exact h
          exact mem_uploads_uploadKey hk
        | none =>
          simp only [huk] at h
          have hk : k ∈ (uploadKey w st (s3 ++ f) bytes).1.uploads := by
            rw [huk]; exact h
          exact mem_uploads_uploadKey hk

lemma mem_uploads_processFile {w : World} {entry s3 : String}
    {cks : List (String × String)} {st : EngState} {f k : String}
    (h : k ∈ (processFile w entry s3 cks st f).1.uploads) :
    k ∈ st.uploads ∨ k = s3 ++ f := by
  rw [processFile] at h
  cases hfe : st.store.any (fun kv => strStarts (s3 ++ f) kv.1) with
  | false =>
    simp only [hfe] at h
    exact mem_uploads_fetchAttempts 3 1 st k h
  | true =>
    simp only [hfe] at h
    cases hexp : assocGet cks f with
    | some e =>
      simp only [hexp] at h
      cases hget : assocGet st.store (s3 ++ f) with
      | none => simp only [hget] at h; exact Or.inl h
      | some bytes =>
        simp only [hget] at h
        by_cases hmd : w.md5 bytes = e
        · rw [if_pos hmd] at h
          exact Or.inl h
        · rw [if_neg hmd] at h
          exact mem_uploads_fetchAttempts 3 1 st k h
    | none =>
      simp only [hexp] at h
      exact Or.inl h

lemma mem_uploads_processFiles {w : World} {entry s3 : String}
    {cks : List (String × String)} :
    ∀ (fs : List String) (st : EngState) (k : String),
      k ∈ (processFiles w entry s3 cks st fs).1.uploads →
      k ∈ st.uploads ∨ ∃ f ∈ fs, k = s3 ++ f := by
  intro fs
  induction fs with
  | nil => intro st k h; exact Or.inl h
  | cons f fs ih =>
    intro st k h
    rw [processFiles] at h
    rcases hpf : processFile w entry s3 cks st f with ⟨st', e'⟩
    cases e' with
    | some e =>
      simp only [hpf] at h
      have hk : k ∈ (processFile w entry s3 cks st f).1.uploads := by
        rw [hpf]; exact h
      rcases mem_uploads_processFile hk with h2 | h2
      · exact Or.inl h2
      · exact Or.inr ⟨f, List.mem_cons_self _ _, h2⟩
    | none =>
      simp only [hpf] at h
      rcases ih st' k h with h2 | h2
      · have hk : k ∈ (processFile w entry s3 cks st f).1.uploads := by
          rw [hpf]; exact h2
        rcases mem_uploads_processFile hk with h3 | h3
        · exact Or.inl h3
        · exact Or.inr ⟨f, List.mem_cons_self _ _, h3⟩
      · rcases h2 with ⟨f2, hf2, hk2⟩
        exact Or.inr ⟨f2, List.mem_cons_of_mem _ hf2, hk2⟩

lemma md5Phase_absent (w : World) (s3 : String)
    (h : w.files.contains "md5checksums.txt" = false) :
    md5Phase w s3 = ([], emptyEngState w.store, none) := by
  rw [md5Phase, if_neg (by simpa using h)]

lemma md5Phase_present (w : World) (s3 : String)
    (h : w.files.contains "md5checksums.txt" = true)
    (hup : w.uploadErr (s3 ++ "md5checksums.txt") = none) :
    md5Phase w s3 =
      (parse_md5checksums (String.intercalate "\n" w.md5Lines),
       ⟨assocInsert w.store (s3 ++ "md5checksums.txt")
          (String.intercalate "\n" w.md5Lines),
        [s3 ++ "md5checksums.txt"], [], [], [], []⟩,
       none) := by
  rw [md5Phase, if_pos h]
  simp [uploadKey, hup, emptyEngState]

lemma mem_uploads_md5Phase {w : World} {s3 k : String}
    (h : k ∈ (md5Phase w s3).2.1.uploads) : k = s3 ++ "md5checksums.txt" := by
  rw [md5Phase] at h
  cases hc : w.files.contains "md5checksums.txt" with
  | false =>
    simp only [hc] at h
    exact absurd h (List.not_mem_nil k)
  | true =>
    simp only [hc] at h
    rcases huk : uploadKey w (emptyEngState w.store) (s3 ++ "md5checksums.txt")
        (String.intercalate "\n" w.md5Lines) with ⟨st', e'⟩
    cases e' with
    | some e =>
      simp only [huk] at h
      have hk : k ∈ (uploadKey w (emptyEngState w.store) (s3 ++ "md5checksums.txt")
          (String.intercalate "\n" w.md5Lines)).1.uploads := by
        rw [huk]; exact h
      rcases mem_uploads_uploadKey hk with h2 | h2
      · exact absurd h2 (List.not_mem_nil k)
      · exact h2
    | none =>
      simp only [huk] at h
      have hk : k ∈ (uploadKey w (emptyEngState w.store) (s3 ++ "md5checksums.txt")
          (String.intercalate "\n" w.md5Lines)).1.uploads := by
        rw [huk]; exact h
      rcases mem_uploads_uploadKey hk with h2 | h2
      · exact absurd h2 (List.not_mem_nil k)
      · exact h2

lemma descriptorPhase_resources (w : World) (ad acc now s3 : String) (st2 : EngState) :
    (descriptorPhase w ad acc now s3 st2).1.resources = st2.resources := by
  rw [descriptorPhase]
  cases he : st2.resources.isEmpty with
  | true => simp [he]
  | false =>
    simp only [he]
    rcases huk : uploadKey w st2 (s3 ++ "datapackage.json")
        (w.encode (create_frictionless_descriptor ad acc now st2.resources)) with ⟨st3, e3⟩
    cases e3 with
    | some e =>
      simp only [huk]
      have := uploadKey_fst_resources w st2 (s3 ++ "datapackage.json")
        (w.encode (create_frictionless_descriptor ad acc now st2.resources))
      rw [huk] at this
      simpa using this
    | none =>
      simp only [huk]
      have := uploadKey_fst_resources w st2 (s3 ++ "datapackage.json")
        (w.encode (create_frictionless_descriptor ad acc now st2.resources))
      rw [huk] at this
      simpa using this

lemma mem_uploads_descriptorPhase {w : World} {ad acc now s3 : String}
    {st2 : EngState} {k : String}
    (h : k ∈ (descriptorPhase w ad acc now s3 st2).1.uploads) :
    k ∈ st2.uploads ∨ (k = s3 ++ "datapackage.json" ∧ st2.resources ≠ []) := by
  rw [descriptorPhase] at h
  cases he : st2.resources.isEmpty with
  | true =>
    simp only [he] at h
    exact Or.inl h
  | false =>
    simp only [he] at h
    have hne : st2.resources ≠ [] := by
      intro hnil
      rw [hnil] at he
      exact absurd he (by simp)
    rcases huk : uploadKey w st2 (s3 ++ "datapackage.json")
        (w.encode (create_frictionless_descriptor ad acc now st2.resources)) with ⟨st3, e3⟩
    cases e3 with
    | some e =>
      simp only [huk] at h
      have hk : k ∈ (uploadKey w st2 (s3 ++ "datapackage.json")
          (w.encode (create_frictionless_descriptor ad acc now st2.resources))).1.uploads := by
        rw [huk]; exact h
      rcases mem_uploads_uploadKey hk with h2 | h2
      · exact Or.inl h2
      · exact Or.inr ⟨h2, hne⟩
    | none =>
      simp only [huk] at h
      have hk : k ∈ (uploadKey w st2 (s3 ++ "datapackage.json")
          (w.encode (create_frictionless_descriptor ad acc now st2.resources))).1.uploads := by
        rw [huk]; exact h
      rcases mem_uploads_uploadKey hk with h2 | h2
      · exact Or.inl h2
      · exact Or.inr ⟨h2, hne⟩

/-- Every upload performed by one `download_genome_files` run is either
the checksum manifest, one of the filter-matched target files, or the
descriptor (the latter only when at least one file was uploaded), always
under the derived destination path. -/
lemma engine_uploads_origin (w : World) (entry ad acc now k : String)
    (hk : k ∈ (download_genome_files w entry ad acc now).1.uploads) :
    ∃ p, build_accession_path ad = some p ∧
      (k = minioPathBase ++ p ++ "md5checksums.txt" ∨
       (∃ f, f ∈ w.files ∧
          file_filters.any (fun suf => pyEndsWith f suf) = true ∧
          k = minioPathBase ++ p ++ f) ∨
       (k = minioPathBase ++ p ++ "datapackage.json" ∧
        (download_genome_files w entry ad acc now).1.resources ≠ [])) := by
  rw [download_genome_files] at hk
  cases hpath : build_accession_path ad with
  | none =>
    simp only [hpath] at hk
    exact absurd hk (List.not_mem_nil k)
  | some p =>
    simp only [hpath] at hk
    refine ⟨p, rfl, ?_⟩
    rcases hm : md5Phase w (minioPathBase ++ p) with ⟨cks, st1, e1⟩
    have hst1 : ∀ k', k' ∈ st1.uploads → k' = minioPathBase ++ p ++ "md5checksums.txt" := by
      intro k' hk'
      have hk2 : k' ∈ (md5Phase w (minioPathBase ++ p)).2.1.uploads := by
        rw [hm]
        exact hk'
      exact mem_uploads_md5Phase hk2
    cases e1 with
    | some e =>
      simp only [hm] at hk
      exact Or.inl (hst1 k hk)
    | none =>
      simp only [hm] at hk
      cases htf : (w.files.filter
          (fun f => file_filters.any (fun suf => pyEndsWith f suf))).isEmpty with
      | true =>
        simp only [htf] at hk
        exact Or.inl (hst1 k hk)
      | false =>
        simp only [htf] at hk
        rcases hpf : processFiles w entry (minioPathBase ++ p) cks st1
            (w.files.filter (fun f => file_filters.any (fun suf => pyEndsWith f suf)))
          with ⟨st2, e2⟩
        have hst2 : ∀ k', k' ∈ st2.uploads →
            k' = minioPathBase ++ p ++ "md5checksums.txt" ∨
            ∃ f, f ∈ w.files ∧
              file_filters.any (fun suf => pyEndsWith f suf) = true ∧
              k' = minioPathBase ++ p ++ f := by
          intro k' hk'
          have hk2 : k' ∈ (processFiles w entry (minioPathBase ++ p) cks st1
              (w.files.filter
                (fun f => file_filters.any (fun suf => pyEndsWith f suf)))).1.uploads := by
            rw [hpf]
            exact hk'
          rcases mem_uploads_processFiles _ st1 k' hk2 with h2 | ⟨f, hf, hkf⟩
          · exact Or.inl (hst1 k' h2)
          · rcases List.mem_filter.mp hf with ⟨hfm, hff⟩
            exact Or.inr ⟨f, hfm, hff, hkf⟩
        cases e2 with
        | some e =>
          simp only [hpf] at hk
          rcases hst2 k hk with h2 | h2
          · exact Or.inl h2
          · exact Or.inr (Or.inl h2)
        | none =>
          simp only [hpf] at hk
          rcases mem_uploads_descriptorPhase hk with h2 | ⟨hdp, hres⟩
          · rcases hst2 k h2 with h3 | h3
            · exact Or.inl h3
            · exact Or.inr (Or.inl h3)
          · refine Or.inr (Or.inr ⟨hdp, ?_⟩)
            have hengine : download_genome_files w entry ad acc now =
                descriptorPhase w ad acc now (minioPathBase ++ p) st2 := by
              rw [download_genome_files]
              simp [hpath, hm, htf, hpf]
            rw [hengine, descriptorPhase_resources]
            exact hres

lemma str_append_left_cancel {a b c : String} (h : a ++ b = a ++ c) : b = c := by
  apply String.ext
  have h2 := congrArg String.data h
  simp only [String.data_append] at h2
  exact List.append_cancel_left h2

/-- **C10.** Every object key uploaded while processing one assembly lies
under the destination prefix `minioPathBase ++ build_accession_path
assembly_dir`, and the name under that prefix is `md5checksums.txt`,
`datapackage.json`, or a listed filename ending in one of the 10 fixed
`file_filters` suffixes; no key outside that prefix is ever written. -/
theorem claim10_upload_confinement (w : World) (entry ad acc now k : String)
    (hk : k ∈ (download_genome_files w entry ad acc now).1.uploads) :
    ∃ p n, build_accession_path ad = some p ∧ k = minioPathBase ++ p ++ n ∧
      ((n == "md5checksums.txt") || (n == "datapackage.json") ||
        file_filters.any (fun suf => pyEndsWith n suf)) = true := by
  rcases engine_uploads_origin w entry ad acc now k hk with
    ⟨p, hp, h1 | ⟨f, hfm, hff, hkf⟩ | ⟨h1, _⟩⟩
  · exact ⟨p, "md5checksums.txt", hp, h1, by decide⟩
  · exact ⟨p, f, hp, hkf, by simp [hff]⟩
  · exact ⟨p, "datapackage.json", hp, h1, by decide⟩

/-- A world in which one target file is fetched, verified and uploaded, so
the checksum manifest, the file and the descriptor are all uploaded. -/
def wUpload : World :=
  { store := []
    files := ["md5checksums.txt", "x_genomic.fna.gz"]
    md5Lines := ["aaaa x_genomic.fna.gz"]
    fetch := fun _ _ => .ok "B"
    uploadErr := fun _ => none
    md5 := fun _ => "aaaa"
    encode := fun _ => "J" }

/-- Witness for C10: the checksum-manifest upload key of a concrete run. -/
theorem claim10_upload_confinement_witness :
    ∃ p n, build_accession_path "GCA_000000001.1_X" = some p ∧
      minioPathBase ++ "raw_data/GCA/000/000/001/GCA_000000001.1_X/" ++
          "md5checksums.txt" = minioPathBase ++ p ++ n ∧
      ((n == "md5checksums.txt") || (n == "datapackage.json") ||
        file_filters.any (fun suf => pyEndsWith n suf)) = true :=
  claim10_upload_confinement wUpload "E" "GCA_000000001.1_X" "GCA_000000001.1" "T"
    (minioPathBase ++ "raw_data/GCA/000/000/001/GCA_000000001.1_X/" ++ "md5checksums.txt")
    (by decide)

/-- **C4 counterexample.** `create_frictionless_descriptor` is a total
pure function: on an empty outcome list it does not fail — it returns a
complete descriptor whose `resources` list is empty. -/
theorem claim4_counterexample :
    (create_frictionless_descriptor "GCA_000195005.1_ASM19500v1" "GCA_000195005.1"
        "2026-10-12T00:00:00" []).resources = [] ∧
    (create_frictionless_descriptor "GCA_000195005.1_ASM19500v1" "GCA_000195005.1"
        "2026-10-12T00:00:00" []).name = "gca-000195005-1-asm19500v1" :=
  ⟨rfl, by decide⟩

/-- **C4 (amended).** The Manifest Builder never fails: for every outcome
list — empty included — it returns a descriptor carrying exactly that list
as `resources`.  The emptiness guard lives in the caller:
`download_genome_files` uploads `datapackage.json` only when at least one
file was uploaded, so a manifest with an empty resources list is never
written. -/
theorem claim4_descriptor_total :
    (∀ ad acc now l, (create_frictionless_descriptor ad acc now l).resources = l) ∧
    (∀ (w : World) (entry ad acc now p : String),
      build_accession_path ad = some p →
      minioPathBase ++ p ++ "datapackage.json" ∈
        (download_genome_files w entry ad acc now).1.uploads →
      (download_genome_files w entry ad acc now).1.resources ≠ []) := by
  constructor
  · intro ad acc now l; rfl
  · intro w entry ad acc now p hp hk
    rcases engine_uploads_origin w entry ad acc now _ hk with
      ⟨p', hp', h1 | ⟨f, hfm, hff, hkf⟩ | ⟨h1, hres⟩⟩
    · rw [hp] at hp'
      have hpp : p = p' := Option.some.inj hp'
      subst hpp
      have := str_append_left_cancel h1
      exact absurd this (by decide)
    · rw [hp] at hp'
      have hpp : p = p' := Option.some.inj hp'
      subst hpp
      have hfd : "datapackage.json" = f := str_append_left_cancel hkf
      rw [← hfd] at hff
      exact absurd hff (by decide)
    · exact hres

/-- Witness for C4 (amended) on a concrete resource list and a concrete
run that uploads the descriptor. -/
theorem claim4_descriptor_total_witness :
    (create_frictionless_descriptor "GCA_000195005.1_ASM19500v1" "GCA_000195005.1" "T"
        [⟨"a", "a", "gz", 3, none⟩]).resources = [⟨"a", "a", "gz", 3, none⟩] ∧
    (download_genome_files wUpload "E" "GCA_000000001.1_X" "GCA_000000001.1"
        "T").1.resources ≠ [] :=
  ⟨claim4_descriptor_total.1 "GCA_000195005.1_ASM19500v1" "GCA_000195005.1" "T"
      [⟨"a", "a", "gz", 3, none⟩],
   claim4_descriptor_total.2 wUpload "E" "GCA_000000001.1_X" "GCA_000000001.1" "T"
      "raw_data/GCA/000/000/001/GCA_000000001.1_X/" (by decide) (by decide)⟩

/-- A world whose first target file fails with a network error while the
second would succeed. -/
def wNetErr : World :=
  { store := []
    files := ["a_genomic.fna.gz", "b_genomic.gff.gz"]
    md5Lines := []
    fetch := fun f _ =>
      if f = "a_genomic.fna.gz" then .error "network error" else .ok "bytes"
    uploadErr := fun _ => none
    md5 := fun _ => "d"
    encode := fun _ => "J" }

/-- **C1 counterexample.** A network error while fetching the first target
file is *not* caught and converted into that file's `failed` outcome: the
run aborts with the error, no outcome record exists for the failing file,
and the second target file of the same assembly is never processed. -/
theorem claim1_counterexample :
    (download_genome_files wNetErr "E" "GCA_000195005.1_ASM19500v1"
        "GCA_000195005.1" "T").2 = some "network error" ∧
    (download_genome_files wNetErr "E" "GCA_000195005.1_ASM19500v1"
        "GCA_000195005.1" "T").1.outcomes = [] ∧
    (download_genome_files wNetErr "E" "GCA_000195005.1_ASM19500v1"
        "GCA_000195005.1" "T").1.failed_transfers = [] ∧
    (download_genome_files wNetErr "E" "GCA_000195005.1_ASM19500v1"
        "GCA_000195005.1" "T").1.uploads = [] :=
  ⟨by decide, by decide, by decide, by decide⟩

/-- **C1 (amended).** There is no per-file handler in
`download_genome_files`: a network/storage error raised while fetching a
target file propagates out of the per-file loop (re-raised by the
function-level handler), aborting the whole assembly — here shown for an
error on the first fetch attempt of the first target file of an assembly
without a checksum manifest: the run ends with that error and *no* outcome,
failure record or upload is produced for any file. -/
theorem claim1_error_aborts (w : World) (entry ad acc now p f e : String)
    (rest : List String)
    (hp : build_accession_path ad = some p)
    (hmd5 : w.files.contains "md5checksums.txt" = false)
    (htf : w.files.filter (fun f => file_filters.any (fun suf => pyEndsWith f suf)) =
      f :: rest)
    (hex : w.store.any (fun kv => strStarts (minioPathBase ++ p ++ f) kv.1) = false)
    (hfetch : w.fetch f 1 = .error e) :
    download_genome_files w entry ad acc now = (emptyEngState w.store, some e) := by
  rw [download_genome_files]
  simp only [hp]
  rw [md5Phase_absent w (minioPathBase ++ p) hmd5]
  simp only [htf, List.isEmpty_cons, Bool.false_eq_true, if_false]
  rw [processFiles, processFile]
  simp only [emptyEngState, hex]
  rw [fetchAttempts]
  simp only [hfetch]

/-- Witness for C1 (amended) at the concrete two-file world. -/
theorem claim1_error_aborts_witness :
    download_genome_files wNetErr "E" "GCA_000195005.1_ASM19500v1"
        "GCA_000195005.1" "T" =
      (emptyEngState wNetErr.store, some "network error") :=
  claim1_error_aborts wNetErr "E" "GCA_000195005.1_ASM19500v1" "GCA_000195005.1" "T"
    "raw_data/GCA/000/195/005/GCA_000195005.1_ASM19500v1/" "a_genomic.fna.gz"
    "network error" ["b_genomic.gff.gz"] (by decide) (by decide) (by decide)
    (by decide) rfl

lemma strStarts_refl (s : String) : strStarts s s = true := by
  simp [strStarts]

lemma processFile_skip (w : World) (entry s3 : String) (cks : List (String × String))
    (st : EngState) (f exp b : String)
    (hexp : assocGet cks f = some exp)
    (hget : assocGet st.store (s3 ++ f) = some b)
    (hmd5 : w.md5 b = exp) :
    processFile w entry s3 cks st f =
      ({ st with outcomes := st.outcomes ++ [(f, FileOutcome.skippedVerified)] },
        none) := by
  have hfe : st.store.any (fun kv => strStarts (s3 ++ f) kv.1) = true := by
    rcases hfind : st.store.find? (fun kv => kv.1 = s3 ++ f) with _ | kv
    · rw [assocGet, hfind] at hget
      exact absurd hget (by simp)
    · have hkv1 : kv.1 = s3 ++ f := by
        have := List.find?_some hfind
        simpa using this
      have hmem : kv ∈ st.store := List.mem_of_find?_eq_some hfind
      rw [List.any_eq_true]
      exact ⟨kv, hmem, by rw [hkv1]; exact strStarts_refl _⟩
  rw [processFile]
  simp only [hfe, hexp, hget, hmd5, if_pos]

lemma processFiles_skip_all (w : World) (entry s3 : String)
    (cks S : List (String × String)) :
    ∀ (fs : List String) (st : EngState), st.store = S →
      (∀ f ∈ fs, ∃ exp b, assocGet cks f = some exp ∧
        assocGet S (s3 ++ f) = some b ∧ w.md5 b = exp) →
      processFiles w entry s3 cks st fs =
        ({ st with outcomes := st.outcomes ++ fs.map (fun f => (f, FileOutcome.skippedVerified)) }, none) := by
  intro fs
  induction fs with
  | nil =>
    intro st hstS hall
    simp [processFiles]
  | cons f fs ih =>
    intro st hstS hall
    obtain ⟨exp, b, hexp, hget, hmd5⟩ := hall f (List.mem_cons_self _ _)
    rw [processFiles,
      processFile_skip w entry s3 cks st f exp b hexp (by rw [hstS]; exact hget) hmd5]
    show processFiles w entry s3 cks
        { st with outcomes := st.outcomes ++ [(f, FileOutcome.skippedVerified)] } fs = _
    rw [ih { st with outcomes := st.outcomes ++ [(f, FileOutcome.skippedVerified)] }
      hstS (fun g hg => hall g (List.mem_cons_of_mem _ hg))]
    simp [List.append_assoc]

/-- **C2 (amended).** Against an unchanged archive and a store whose
destination keys all hold content matching the published digests, a run
produces only `skippedVerified` outcomes and *no* upload of any target
file or of the descriptor — but (contrary to the claim's "zero upload
calls") it still performs exactly one upload: the checksum manifest is
unconditionally re-uploaded. -/
theorem claim2_idempotent_skip (w : World) (entry ad acc now p : String)
    (hp : build_accession_path ad = some p)
    (hmd5 : w.files.contains "md5checksums.txt" = true)
    (hup : w.uploadErr (minioPathBase ++ p ++ "md5checksums.txt") = none)
    (htfne : w.files.filter (fun f => file_filters.any (fun suf => pyEndsWith f suf)) ≠ [])
    (hall : ∀ f ∈ w.files.filter (fun f => file_filters.any (fun suf => pyEndsWith f suf)),
      ∃ exp b,
        assocGet (parse_md5checksums (String.intercalate "\n" w.md5Lines)) f = some exp ∧
        assocGet (assocInsert w.store (minioPathBase ++ p ++ "md5checksums.txt")
          (String.intercalate "\n" w.md5Lines)) (minioPathBase ++ p ++ f) = some b ∧
        w.md5 b = exp) :
    download_genome_files w entry ad acc now =
      ({ store := assocInsert w.store (minioPathBase ++ p ++ "md5checksums.txt")
            (String.intercalate "\n" w.md5Lines),
         uploads := [minioPathBase ++ p ++ "md5checksums.txt"],
         outcomes := (w.files.filter
            (fun f => file_filters.any (fun suf => pyEndsWith f suf))).map
            (fun f => (f, FileOutcome.skippedVerified)),
         failed_transfers := [], no_checksum_files := [], resources := [] }, none) := by
  have hie : (w.files.filter
      (fun f => file_filters.any (fun suf => pyEndsWith f suf))).isEmpty = false := by
    rcases hTF : w.files.filter (fun f => file_filters.any (fun suf => pyEndsWith f suf))
      with _ | ⟨a, b⟩
    · exact absurd hTF htfne
    · rfl
  rw [download_genome_files]
  simp only [hp]
  rw [md5Phase_present w (minioPathBase ++ p) hmd5 hup]
  simp only [hie, Bool.false_eq_true, if_false]
  rw [processFiles_skip_all w entry (minioPathBase ++ p)
    (parse_md5checksums (String.intercalate "\n" w.md5Lines))
    (assocInsert w.store (minioPathBase ++ p ++ "md5checksums.txt")
      (String.intercalate "\n" w.md5Lines))
    (w.files.filter (fun f => file_filters.any (fun suf => pyEndsWith f suf)))
    _ rfl hall]
  simp [descriptorPhase]

/-- A "second run" world: the target file is already in the store with
content whose digest matches the published one. -/
def wSkip : World :=
  { store := [(minioPathBase ++ "raw_data/GCA/000/000/001/GCA_000000001.1_X/" ++
      "x_genomic.fna.gz", "B")]
    files := ["md5checksums.txt", "x_genomic.fna.gz"]
    md5Lines := ["aaaa x_genomic.fna.gz"]
    fetch := fun _ _ => .ok "B2"
    uploadErr := fun _ => none
    md5 := fun _ => "aaaa"
    encode := fun _ => "J" }

/-- **C2 counterexample.** With every destination key present and matching
the published digests, the second run indeed yields only
`skippedVerified` outcomes — but it does *not* make zero upload calls: the
checksum manifest is unconditionally re-uploaded. -/
theorem claim2_counterexample :
    (download_genome_files wSkip "E" "GCA_000000001.1_X" "GCA_000000001.1"
        "T").1.outcomes = [("x_genomic.fna.gz", FileOutcome.skippedVerified)] ∧
    (download_genome_files wSkip "E" "GCA_000000001.1_X" "GCA_000000001.1"
        "T").1.uploads =
      [minioPathBase ++ "raw_data/GCA/000/000/001/GCA_000000001.1_X/" ++
        "md5checksums.txt"] ∧
    (download_genome_files wSkip "E" "GCA_000000001.1_X" "GCA_000000001.1"
        "T").1.uploads ≠ [] :=
  ⟨by decide, by decide, by decide⟩

/-- Witness for C2 (amended) at the concrete second-run world. -/
theorem claim2_idempotent_skip_witness :
    download_genome_files wSkip "E" "GCA_000000001.1_X" "GCA_000000001.1" "T" =
      ({ store := assocInsert wSkip.store
            (minioPathBase ++ "raw_data/GCA/000/000/001/GCA_000000001.1_X/" ++
              "md5checksums.txt")
            (String.intercalate "\n" wSkip.md5Lines),
         uploads := [minioPathBase ++ "raw_data/GCA/000/000/001/GCA_000000001.1_X/" ++
            "md5checksums.txt"],
         outcomes := (wSkip.files.filter
            (fun f => file_filters.any (fun suf => pyEndsWith f suf))).map
            (fun f => (f, FileOutcome.skippedVerified)),
         failed_transfers := [], no_checksum_files := [], resources := [] }, none) :=
  claim2_idempotent_skip wSkip "E" "GCA_000000001.1_X" "GCA_000000001.1" "T"
    "raw_data/GCA/000/000/001/GCA_000000001.1_X/" (by decide) (by decide) rfl
    (by decide)
    (fun f hf => by
      have hfl : wSkip.files.filter
          (fun g => file_filters.any (fun suf => pyEndsWith g suf)) =
          ["x_genomic.fna.gz"] := by decide
      rw [hfl] at hf
      have hfx : f = "x_genomic.fna.gz" := by simpa using hf
      subst hfx
      exact ⟨"aaaa", "B", by decide, by decide, rfl⟩)

/-- **C3 (amended).** For a target file with a known published digest that
is absent from the store and whose fetched content fails verification on
each of the 3 attempts, the per-file loop records exactly one `failed`
outcome — with a reason beginning `"Checksum mismatch after 3 attempts"`
and carrying the expected and last-observed digests — appends exactly one
`failed_transfers` record, and touches neither the store, the upload log,
nor the resource list: the file is never uploaded. -/
theorem claim3_retry_exhaustion (w : World) (entry s3 : String)
    (cks : List (String × String)) (st : EngState) (f exp b1 b2 b3 : String)
    (hexp : assocGet cks f = some exp)
    (hnex : st.store.any (fun kv => strStarts (s3 ++ f) kv.1) = false)
    (hf1 : w.fetch f 1 = .ok b1) (hm1 : w.md5 b1 ≠ exp)
    (hf2 : w.fetch f 2 = .ok b2) (hm2 : w.md5 b2 ≠ exp)
    (hf3 : w.fetch f 3 = .ok b3) (hm3 : w.md5 b3 ≠ exp) :
    processFile w entry s3 cks st f =
      ({ st with
          outcomes := st.outcomes ++
            [(f, FileOutcome.failed (mismatchReason exp (w.md5 b3)))],
          failed_transfers := st.failed_transfers ++
            [⟨entry, f, mismatchReason exp (w.md5 b3)⟩] }, none) := by
  rw [processFile]
  simp only [hnex]
  rw [hexp]
  rw [fetchAttempts]
  simp only [hf1]
  rw [if_pos hm1, if_pos (by norm_num : (1 : Nat) < 3)]
  rw [fetchAttempts]
  simp only [hf2]
  rw [if_pos hm2, if_pos (by norm_num : (2 : Nat) < 3)]
  rw [fetchAttempts]
  simp only [hf3]
  rw [if_pos hm3, if_neg (by norm_num : ¬ (3 : Nat) < 3)]

/-- A world whose target file's fetched bytes never match the published
digest. -/
def wMism : World :=
  { store := []
    files := ["md5checksums.txt", "x_genomic.fna.gz"]
    md5Lines := ["aaaa x_genomic.fna.gz"]
    fetch := fun _ _ => .ok "B"
    uploadErr := fun _ => none
    md5 := fun _ => "bbbb"
    encode := fun _ => "J" }

/-- **C3 counterexample.** After exhausting the 3 attempts the recorded
reason is `"Checksum mismatch after 3 attempts (expected: …, got: …)"` —
not the claim's literal `"checksum mismatch after 3 attempts"` — and the
file itself is never uploaded (only the checksum manifest was). -/
theorem claim3_counterexample :
    (download_genome_files wMism "E" "GCA_000000001.1_X" "GCA_000000001.1"
        "T").1.failed_transfers.map (fun ft => ft.reason) =
      ["Checksum mismatch after 3 attempts (expected: aaaa, got: bbbb)"] ∧
    (download_genome_files wMism "E" "GCA_000000001.1_X" "GCA_000000001.1"
        "T").1.failed_transfers.map (fun ft => ft.reason) ≠
      ["checksum mismatch after 3 attempts"] ∧
    (download_genome_files wMism "E" "GCA_000000001.1_X" "GCA_000000001.1"
        "T").1.uploads =
      [minioPathBase ++ "raw_data/GCA/000/000/001/GCA_000000001.1_X/" ++
        "md5checksums.txt"] :=
  ⟨by decide, by decide, by decide⟩

/-- Witness for C3 (amended) at the concrete always-mismatching world. -/
theorem claim3_retry_exhaustion_witness :
    processFile wMism "E" "p/" [("x_genomic.fna.gz", "aaaa")] (emptyEngState [])
        "x_genomic.fna.gz" =
      ({ emptyEngState [] with
          outcomes :=
            [("x_genomic.fna.gz",
              FileOutcome.failed (mismatchReason "aaaa" (wMism.md5 "B")))],
          failed_transfers :=
            [⟨"E", "x_genomic.fna.gz", mismatchReason "aaaa" (wMism.md5 "B")⟩] },
        none) :=
  claim3_retry_exhaustion wMism "E" "p/" [("x_genomic.fna.gz", "aaaa")]
    (emptyEngState []) "x_genomic.fna.gz" "aaaa" "B" "B" "B" (by decide) (by decide)
    rfl (by decide) rfl (by decide) rfl (by decide)

/-! ## Claim C5 — recursive assembly discovery returns only leaves -/

/-- The string `s₁ ++ "/" ++ s₂ ++ "/" ++ …` appended by the traversal as
it descends. -/
def joinSegs : List String → String
  | [] => ""
  | s :: rest => s ++ "/" ++ joinSegs rest

lemma bool_neg_eq_false {b : Bool} (h : ¬ b = true) : b = false := by
  cases b
  · rfl
  · exact absurd rfl h

lemma bool_not_eq_true {b : Bool} (h : (!b) = true) : b = false := by
  cases b
  · rfl
  · exact absurd h (by simp)

/-- Every discovered path is the base path followed by a nonempty chain of
slash-free segments, of which exactly the last matches the assembly
pattern. -/
def leafShape (path r : String) : Prop :=
  ∃ ini lst, r = path ++ joinSegs (ini ++ [lst]) ∧
    (∀ s ∈ ini ++ [lst], s.data.contains '/' = false) ∧
    (∀ s ∈ ini, assemblyPatternMatch s = false) ∧
    assemblyPatternMatch lst = true

mutual
theorem traverseDir_shape : ∀ (t : FTPDir) (path : String), namesOk t = true →
    ∀ r ∈ traverseDir path t, leafShape path r
  | .err, path, _, r, hr => by
    rw [traverseDir] at hr
    exact absurd hr (List.not_mem_nil r)
  | .node es, path, h, r, hr =>
    traverseEntries_shape es path (by rwa [namesOk] at h) r
      (by rwa [traverseDir] at hr)

theorem traverseEntries_shape : ∀ (es : FTPEntries) (path : String),
    entriesNamesOk es = true → ∀ r ∈ traverseEntries path es, leafShape path r
  | .nil, path, _, r, hr => by
    rw [traverseEntries] at hr
    exact absurd hr (List.not_mem_nil r)
  | .cons line sub rest, path, h, r, hr => by
    have h3 := h
    rw [entriesNamesOk] at h3
    simp only [Bool.and_eq_true] at h3
    obtain ⟨⟨hname, hsub⟩, hrest⟩ := h3
    rw [traverseEntries] at hr
    rcases List.mem_append.mp hr with hl | hrr
    · by_cases h9 : (pySplit line).length < 9
      · rw [if_pos h9] at hl
        exact absurd hl (List.not_mem_nil r)
      · rw [if_neg h9] at hl
        by_cases hd : pyStartsWith line "d" = true
        · rw [if_neg (not_not_intro hd)] at hl
          by_cases hm : assemblyPatternMatch ((pySplit line).getLastD "") = true
          · rw [if_pos hm] at hl
            have hre : r = path ++ (pySplit line).getLastD "" ++ "/" :=
              List.mem_singleton.mp hl
            refine ⟨[], (pySplit line).getLastD "", ?_, ?_, ?_, hm⟩
            · rw [hre]
              apply String.ext
              simp [joinSegs, String.data_append, data_empty, List.append_assoc]
            · intro s hs
              have hs' : s = (pySplit line).getLastD "" := by simpa using hs
              rw [hs']
              exact bool_not_eq_true hname
            · intro s hs
              exact absurd hs (List.not_mem_nil s)
          · rw [if_neg hm] at hl
            obtain ⟨ini, lst, hre, hns, hnm, hml⟩ :=
              traverseDir_shape sub (path ++ (pySplit line).getLastD "" ++ "/") hsub r hl
            refine ⟨(pySplit line).getLastD "" :: ini, lst, ?_, ?_, ?_, hml⟩
            · rw [hre]
              apply String.ext
              simp [joinSegs, String.data_append, List.append_assoc]
            · intro s hs
              rcases List.mem_cons.mp hs with rfl | hs2
              · exact bool_not_eq_true hname
              · exact hns s hs2
            · intro s hs
              rcases List.mem_cons.mp hs with rfl | hs2
              · exact bool_neg_eq_false hm
              · exact hnm s hs2
        · rw [if_pos hd] at hl
          exact absurd hl (List.not_mem_nil r)
    · exact traverseEntries_shape rest path hrest r hrr
end

lemma joinSegs_data_cons (s : String) (rest : List String) :
    (joinSegs (s :: rest)).data = s.data ++ '/' :: (joinSegs rest).data := by
  show (s ++ "/" ++ joinSegs rest).data = _
  simp [String.data_append]

lemma contains_false_not_mem {s : String} (h : s.data.contains '/' = false) :
    '/' ∉ s.data := by
  simpa using h

lemma prefix_slash_cancel : ∀ (a b ra rb : List Char), '/' ∉ a → '/' ∉ b →
    (a ++ '/' :: ra) <+: (b ++ '/' :: rb) → a = b ∧ ra <+: rb := by
  intro a
  induction a with
  | nil =>
    intro b ra rb _ hb h
    cases b with
    | nil =>
      simp only [List.nil_append] at h
      exact ⟨rfl, (List.cons_prefix_cons.mp h).2⟩
    | cons c b' =>
      simp only [List.nil_append, List.cons_append] at h
      have hc : c = '/' := ((List.cons_prefix_cons.mp h).1).symm
      subst hc
      exact absurd (List.mem_cons_self _ _) hb
  | cons c a' ih =>
    intro b ra rb ha hb h
    cases b with
    | nil =>
      simp only [List.cons_append, List.nil_append] at h
      have hc : c = '/' := (List.cons_prefix_cons.mp h).1
      subst hc
      exact absurd (List.mem_cons_self _ _) ha
    | cons d b' =>
      simp only [List.cons_append] at h
      obtain ⟨hcd, h2⟩ := List.cons_prefix_cons.mp h
      subst hcd
      obtain ⟨he, hp⟩ := ih b' ra rb (fun hm => ha (List.mem_cons_of_mem _ hm))
        (fun hm => hb (List.mem_cons_of_mem _ hm)) h2
      exact ⟨by rw [he], hp⟩

lemma joinSegs_prefix : ∀ (l1 l2 : List String),
    (∀ s ∈ l1, s.data.contains '/' = false) →
    (∀ s ∈ l2, s.data.contains '/' = false) →
    (joinSegs l1).data <+: (joinSegs l2).data → l1 <+: l2 := by
  intro l1
  induction l1 with
  | nil => intro l2 _ _ _; exact List.nil_prefix
  | cons s1 r1 ih =>
    intro l2 h1 h2 hp
    cases l2 with
    | nil =>
      rw [joinSegs_data_cons] at hp
      have := List.prefix_nil.mp hp
      simp at this
    | cons s2 r2 =>
      rw [joinSegs_data_cons, joinSegs_data_cons] at hp
      obtain ⟨heq, hp2⟩ := prefix_slash_cancel s1.data s2.data _ _
        (contains_false_not_mem (h1 s1 (List.mem_cons_self _ _)))
        (contains_false_not_mem (h2 s2 (List.mem_cons_self _ _))) hp
      refine List.cons_prefix_cons.mpr ⟨String.ext heq, ?_⟩
      exact ih r2 (fun s hsm => h1 s (List.mem_cons_of_mem _ hsm))
        (fun s hsm => h2 s (List.mem_cons_of_mem _ hsm)) hp2

/-- **C5.** In every traversal of `find_assembly_directories_in_prefix`:
(a) a directory entry (9+ listing fields, a directory, name matching the
assembly pattern) is recorded as a discovered assembly path and its
subtree is never descended into — the result does not depend on that
subtree; and (b) over any tree whose entry names are slash-free, no
returned path is a strict prefix of another returned path: a returned path
that is a prefix of another returned path is equal to it. -/
theorem claim5_discovery_leaves :
    (∀ (path line : String) (sub sub' : FTPDir) (rest : FTPEntries),
      9 ≤ (pySplit line).length → pyStartsWith line "d" = true →
      assemblyPatternMatch ((pySplit line).getLastD "") = true →
      traverseEntries path (.cons line sub rest) =
        (path ++ (pySplit line).getLastD "" ++ "/") :: traverseEntries path rest ∧
      traverseEntries path (.cons line sub rest) =
        traverseEntries path (.cons line sub' rest)) ∧
    (∀ (t : FTPDir) (path p q : String), namesOk t = true →
      p ∈ traverseDir path t → q ∈ traverseDir path t →
      p.data <+: q.data → p = q) := by
  constructor
  · intro path line sub sub' rest h9 hd hm
    have e1 : ∀ (s : FTPDir), traverseEntries path (.cons line s rest) =
        (path ++ (pySplit line).getLastD "" ++ "/") :: traverseEntries path rest := by
      intro s
      rw [traverseEntries]
      rw [if_neg (by omega : ¬ (pySplit line).length < 9)]
      rw [if_neg (not_not_intro hd), if_pos hm]
      rfl
    exact ⟨e1 sub, by rw [e1 sub, e1 sub']⟩
  · intro t path p q hok hp hq hpre
    obtain ⟨i1, l1, he1, hs1, hm1, hl1⟩ := traverseDir_shape t path hok p hp
    obtain ⟨i2, l2, he2, hs2, hm2, hl2⟩ := traverseDir_shape t path hok q hq
    rw [he1, he2] at hpre
    have hpre2 : (joinSegs (i1 ++ [l1])).data <+: (joinSegs (i2 ++ [l2])).data := by
      have h' := hpre
      simp only [String.data_append] at h'
      exact (List.prefix_append_right_inj path.data).mp h'
    have hlp : (i1 ++ [l1]) <+: (i2 ++ [l2]) := joinSegs_prefix _ _ hs1 hs2 hpre2
    obtain ⟨ext, hext⟩ := hlp
    by_cases hE : ext = []
    · rw [hE, List.append_nil] at hext
      rw [he1, he2, hext]
    · exfalso
      have hdl := congrArg List.dropLast hext
      rw [List.dropLast_append_of_ne_nil _ hE, List.dropLast_concat] at hdl
      have hmem : l1 ∈ i2 := by
        rw [← hdl]
        exact List.mem_append.mpr
          (Or.inl (List.mem_append.mpr (Or.inr (List.mem_singleton.mpr rfl))))
      have hfalse := hm2 l1 hmem
      rw [hl1] at hfalse
      exact absurd hfalse (by simp)

/-- Witness for C5: the matched-leaf equations at a concrete listing line
and the no-strict-prefix property at a concrete discovered path. -/
theorem claim5_discovery_leaves_witness :
    (traverseEntries "/x/"
        (.cons "drwxr-xr-x 2 ftp ftp 4096 Jan 1 2024 GCA_000000001.1_ASM1" .err .nil) =
      ("/x/" ++ (pySplit
        "drwxr-xr-x 2 ftp ftp 4096 Jan 1 2024 GCA_000000001.1_ASM1").getLastD "" ++ "/") ::
        traverseEntries "/x/" .nil ∧
     traverseEntries "/x/"
        (.cons "drwxr-xr-x 2 ftp ftp 4096 Jan 1 2024 GCA_000000001.1_ASM1" .err .nil) =
      traverseEntries "/x/"
        (.cons "drwxr-xr-x 2 ftp ftp 4096 Jan 1 2024 GCA_000000001.1_ASM1"
          (.node .nil) .nil)) ∧
    "/x/GCA_000000001.1_ASM1/" = "/x/GCA_000000001.1_ASM1/" :=
  ⟨claim5_discovery_leaves.1 "/x/"
      "drwxr-xr-x 2 ftp ftp 4096 Jan 1 2024 GCA_000000001.1_ASM1" .err (.node .nil)
      .nil (by decide) (by decide) (by decide),
   claim5_discovery_leaves.2
      (.node (.cons "drwxr-xr-x 2 ftp ftp 4096 Jan 1 2024 GCA_000000001.1_ASM1"
        (.node .nil) .nil))
      "/x/" "/x/GCA_000000001.1_ASM1/" "/x/GCA_000000001.1_ASM1/" (by decide)
      (by decide) (by decide) (List.prefix_refl _)⟩

end NCBI
